import Mathlib

/-!
Verification of the HWC-POTREE-API job-processing core.

Shallow embedding of the job store (`src/storage/db.py`), the worker's
atomic claim and pipeline (`src/worker.py`), and the retention reaper
scheduling.  Timestamps are modelled as natural numbers of seconds
(`datetime.utcnow()` values are only created, compared and subtracted in
the embedded code, never otherwise inspected).  Geographic coordinates
are modelled as integers: no claim depends on their numeric values, only
on whether they are present and on the 0-defaulting of missing
sub-values.
-/

namespace PotreeAPI

/-- Job status values used by the code: "pending", "processing",
"completed", "failed". -/
inductive Status where
  | pending
  | processing
  | completed
  | failed
deriving DecidableEq, Repr

/-- Pipeline step names written into `current_step` by the worker:
"metadata", "thumbnail", "conversion", "upload", "completed". -/
inductive Step where
  | metadata
  | thumbnail
  | conversion
  | upload
  | completed
deriving DecidableEq, Repr

/-- Statuses the spec calls terminal. -/
def Status.isTerminal : Status → Bool
  | .completed => true
  | .failed => true
  | _ => false

/-- Position of a status in the order pending → processing → terminal. -/
def Status.rank : Status → Nat
  | .pending => 0
  | .processing => 1
  | .completed => 2
  | .failed => 2

/-- Position of a step in the fixed step order
metadata → thumbnail → conversion → upload → completed. -/
def Step.rank : Step → Nat
  | .metadata => 0
  | .thumbnail => 1
  | .conversion => 2
  | .upload => 3
  | .completed => 4

/-- Job record.  Fields follow `src/storage/db.py` (`create_job`,
`update_job_status`) and `src/worker.py`.  The `models/Job.py` file is
not part of the sources; per the spec, `current_step`, `error_message`
and `completed_at` are optional and absent until written, which is how
`create_job` leaves them. -/
structure Job where
  id : String
  project_id : String
  status : Status
  current_step : Option Step := none
  progress_message : Option String := none
  error_message : Option String := none
  file_path : Option String := none
  azure_path : Option String := none
  retry_count : Nat := 0
  created_at : Nat
  updated_at : Nat
  completed_at : Option Nat := none
deriving DecidableEq, Repr

/-- Optional keyword arguments of `DatabaseManager.update_job_status`:
a field is `some v` exactly when the Python call supplies that keyword. -/
structure UpdateKwargs where
  current_step : Option Step := none
  progress_message : Option String := none
  error_message : Option String := none
  retry_count : Option Nat := none
deriving DecidableEq, Repr

/-- Effect of `update_job_status` on the matched document: `$set` of
`status`, `updated_at`, each supplied keyword field, and `completed_at`
when the supplied status is completed or failed
(`src/storage/db.py:222-253`). -/
def applyUpdate (now : Nat) (status : Status) (kw : UpdateKwargs) (j : Job) : Job :=
  let j := { j with status := status, updated_at := now }
  let j := match kw.current_step with
    | some s => { j with current_step := some s }
    | none => j
  let j := match kw.progress_message with
    | some m => { j with progress_message := some m }
    | none => j
  let j := match kw.error_message with
    | some m => { j with error_message := some m }
    | none => j
  let j := match kw.retry_count with
    | some r => { j with retry_count := r }
    | none => j
  if status = .completed ∨ status = .failed then
    { j with completed_at := some now }
  else j

/-- Mongo `update_one` semantics: rewrite the first document matching
the predicate, leave everything else unchanged. -/
def updateFirst (p : Job → Bool) (f : Job → Job) : List Job → List Job
  | [] => []
  | j :: rest => if p j then f j :: rest else j :: updateFirst p f rest

/-- Mongo `find_one` on `{_id: job_id}`: first document with that id
(`DatabaseManager.get_job`). -/
def getJob (store : List Job) (job_id : String) : Option Job :=
  store.find? (fun j => j.id = job_id)

/-- `DatabaseManager.update_job_status` acting on the whole collection
(`src/storage/db.py:222-254`). -/
def update_job_status (store : List Job) (job_id : String) (status : Status)
    (kw : UpdateKwargs) (now : Nat) : List Job :=
  updateFirst (fun j => j.id = job_id) (applyUpdate now status kw) store

/-- `DatabaseManager.create_job` (`src/storage/db.py:169-203`): reject a
duplicate id with `ValueError`, otherwise insert a new pending job. -/
def create_job (store : List Job) (project_id file_path azure_path job_id : String)
    (now : Nat) : Except String (List Job) :=
  if store.any (fun j => j.id = job_id) then
    .error ("Job with id " ++ job_id ++ " already exists")
  else
    .ok (store ++ [{ id := job_id
                     project_id := project_id
                     status := .pending
                     file_path := some file_path
                     azure_path := some azure_path
                     created_at := now
                     updated_at := now }])

/-- Documents matching the claim filter `{status: "pending"}`. -/
def pendingJobs (store : List Job) : List Job :=
  store.filter (fun j => j.status = .pending)

/-- First document in `created_at`-ascending order: the job with the
smallest `created_at`, preferring the earlier document on ties. -/
def minByCreated : List Job → Option Job
  | [] => none
  | j :: rest =>
    match minByCreated rest with
    | none => some j
    | some b => if b.created_at < j.created_at then some b else some j

/-- Pending job selected by `find_one_and_update`'s
`sort=[("created_at", 1)]`. -/
def oldestPending (store : List Job) : Option Job :=
  minByCreated (pendingJobs store)

/-- `JobWorker.get_next_job` (`src/worker.py:138-172`): one atomic
`find_one_and_update` that selects the oldest pending job, sets its
status to processing and bumps `updated_at`, returning the updated
document; `(none, store)` when no pending job exists.  The whole pair of
read and write is a single Mongo operation, which is why it is one
function application here. -/
def claimNext (store : List Job) (now : Nat) : Option Job × List Job :=
  match oldestPending store with
  | none => (none, store)
  | some j =>
    let claimed := { j with status := Status.processing, updated_at := now }
    (some claimed,
     updateFirst (fun k => k.id = j.id)
       (fun k => { k with status := Status.processing, updated_at := now }) store)

/-- `DatabaseManager.cleanup_old_jobs` (`src/storage/db.py:273-286`):
`delete_many` of every document with `created_at` strictly before
`now - hours`, returning the remaining store and the deleted count.
The cutoff uses truncated subtraction, harmless because real UTC
timestamps far exceed 72 hours. -/
def cleanup_old_jobs (store : List Job) (now : Nat) (hours : Nat) : List Job × Nat :=
  let cutoff := now - hours * 3600
  (store.filter (fun j => ¬ j.created_at < cutoff),
   (store.filter (fun j => j.created_at < cutoff)).length)

/-- Sequential composition of `n` claim calls.  Because each call is a
single atomic store operation, any interleaving of `n` concurrent
callers is exactly such a sequence; the callers are symmetric, so the
order does not matter. -/
def runClaims : Nat → List Job → Nat → List (Option Job) × List Job
  | 0, store, _ => ([], store)
  | n + 1, store, now =>
    let (r, store') := claimNext store now
    let (rs, store'') := runClaims n store' now
    (r :: rs, store'')

/-- Project fields the pipeline reads or writes (`models/Project.py` is
outside the sources; the fields below are exactly those
`JobWorker.process_job` touches, coordinates as integers). -/
structure Project where
  id : String
  crs : Option Nat := none
  location : Option (Int × Int × Int) := none
  point_count : Option Nat := none
  thumbnail : Option String := none
  cloud : Option String := none
deriving DecidableEq, Repr

/-- Center dictionary returned by the Metadata Extractor: the three
sub-values are each possibly `None` (`src/worker.py:219-230`). -/
structure Center where
  lat : Option Int := none
  lon : Option Int := none
  z : Option Int := none
deriving DecidableEq, Repr

/-- Result dictionary of `CloudMetadata.summary()` as consumed by
`process_job`: a possibly falsy `center` and a points count (the
extractor contract guarantees the `points` key; a `0` value is falsy
for the `if metadata.get('points')` check). -/
structure Metadata where
  center : Option Center := none
  points : Nat := 0
deriving DecidableEq, Repr

/-- Observable external calls made during one `process_job` run. -/
inductive Ev where
  | getProject
  | extractMetadata
  | thumbGenerate
  | thumbUpload
  | projectUpdate
  | convert
  | uploadOutput
  | markFailed
  | cleanupTemp
  | rmtreeOutput
deriving DecidableEq, Repr

/-- One successful `update_job_status` network call issued by the
worker: the status argument and the supplied keyword fields. -/
structure DbCall where
  status : Status
  kw : UpdateKwargs
deriving DecidableEq, Repr

/-- Outcomes of the external collaborators and of each fallible store
write during one `process_job` run, in program order.  Every field
models one call site; `.error msg` means that call raised an exception
whose message is `msg`.  `project?` is the `getProject` result
(`none` triggers the in-pipeline `ValueError`). -/
structure Oracles where
  project? : Option Project
  updMetadataStep : Except String Unit := .ok ()
  metadata : Except String Metadata := .ok {}
  updThumbnailStep : Except String Unit := .ok ()
  thumbGen : Except String Unit := .ok ()
  thumbUpload : Except String Unit := .ok ()
  thumbSas : Except String String := .ok ""
  projectUpdate1 : Except String Unit := .ok ()
  updConversionStep : Except String Unit := .ok ()
  convert : Except String Unit := .ok ()
  updUploadStep : Except String Unit := .ok ()
  uploadOutput : Except String String := .ok ""
  projectUpdate2 : Except String Unit := .ok ()
  updCompleted : Except String Unit := .ok ()
  markFailedUpdate : Except String Unit := .ok ()
deriving Repr

/-- Result of one `process_job` run.  The store is never read by
`process_job`, so its effect is fully described by `calls`, the
successful `update_job_status` writes in order; `projDb` is the last
project document persisted by `updateProject`; `escaped` is the
exception propagating out of `process_job`, if any; `madeOutputDir`
records whether the scratch output directory was created. -/
structure RunResult where
  events : List Ev
  calls : List DbCall
  projDb : Option Project := none
  madeOutputDir : Bool := false
  escaped : Option String := none
deriving Repr

/-- Application of the extracted metadata to the in-memory project
(`src/worker.py:219-233`): a truthy center sets `location` with missing
sub-values defaulted to 0; a truthy points count sets `point_count`. -/
def applyMetadataToProject (md : Metadata) (p : Project) : Project :=
  let p := match md.center with
    | none => p
    | some c => { p with location := some (c.lat.getD 0, c.lon.getD 0, c.z.getD 0) }
  if md.points ≠ 0 then { p with point_count := some md.points } else p

/-- Soft thumbnail block (`src/worker.py:246-268`): generate, upload,
make a SAS URL; any exception inside the block is caught and processing
continues with the project's thumbnail unchanged. -/
def thumbnailBlock (o : Oracles) (p : Project) : List Ev × Project :=
  match o.thumbGen with
  | .error _ => ([Ev.thumbGenerate], p)
  | .ok _ =>
    match o.thumbUpload with
    | .error _ => ([Ev.thumbGenerate, Ev.thumbUpload], p)
    | .ok _ =>
      match o.thumbSas with
      | .error _ => ([Ev.thumbGenerate, Ev.thumbUpload], p)
      | .ok url => ([Ev.thumbGenerate, Ev.thumbUpload], { p with thumbnail := some url })

/-- `update_job_status` keyword arguments used when entering a pipeline
step (`src/worker.py:202-207` and the analogous calls). -/
def stepKwargs (s : Step) (msg : String) : UpdateKwargs :=
  { current_step := some s, progress_message := some msg }

/-- The `except` handler of `process_job` (`src/worker.py:333-346`):
`mark_failed` (an `update_job_status` network call that may itself
raise, in which case the new exception escapes and no cleanup runs),
then `cleanup_temp_files`, then removal of the output directory when it
exists; the last two swallow their own errors internally. -/
def failPath (o : Oracles) (msg : String) (evs : List Ev) (cs : List DbCall)
    (projDb : Option Project) (madeDir : Bool) : RunResult :=
  match o.markFailedUpdate with
  | .error e =>
    { events := evs, calls := cs, projDb := projDb, madeOutputDir := madeDir,
      escaped := some e }
  | .ok _ =>
    { events := evs ++ [Ev.markFailed, Ev.cleanupTemp]
        ++ (if madeDir then [Ev.rmtreeOutput] else []),
      calls := cs ++ [⟨Status.failed,
        { error_message := some msg, progress_message := some "Processing failed" }⟩],
      projDb := projDb, madeOutputDir := madeDir, escaped := none }

/-- `JobWorker.process_job` (`src/worker.py:174-346`), with every
external call replaced by its oracle outcome.  The control flow follows
the source line by line: a missing project raises `ValueError`; each
step persists `current_step`/`progress_message` before running; the
thumbnail block is soft; metadata, conversion and upload raises reach
the `except` handler; on success the job is marked completed and both
cleanups run inside the `try`. -/
def process_job (job : Job) (o : Oracles) : RunResult :=
  let e0 := [Ev.getProject]
  match o.project? with
  | none => failPath o ("Project " ++ job.project_id ++ " not found") e0 [] none false
  | some project0 =>
    match o.updMetadataStep with
    | .error e => failPath o e e0 [] none false
    | .ok _ =>
      let c1 : DbCall :=
        ⟨Status.processing, stepKwargs .metadata "Extracting point cloud metadata..."⟩
      let e1 := e0 ++ [Ev.extractMetadata]
      match o.metadata with
      | .error e => failPath o e e1 [c1] none false
      | .ok md =>
        let project1 := applyMetadataToProject md project0
        match o.updThumbnailStep with
        | .error e => failPath o e e1 [c1] none false
        | .ok _ =>
          let c2 : DbCall :=
            ⟨Status.processing, stepKwargs .thumbnail "Generating thumbnail..."⟩
          let tb := thumbnailBlock o project1
          let e2 := e1 ++ tb.1 ++ [Ev.projectUpdate]
          let project2 := tb.2
          match o.projectUpdate1 with
          | .error e => failPath o e e2 [c1, c2] none false
          | .ok _ =>
            match o.updConversionStep with
            | .error e => failPath o e e2 [c1, c2] (some project2) false
            | .ok _ =>
              let c3 : DbCall :=
                ⟨Status.processing, stepKwargs .conversion "Converting to Potree format..."⟩
              let e3 := e2 ++ [Ev.convert]
              match o.convert with
              | .error e => failPath o e e3 [c1, c2, c3] (some project2) true
              | .ok _ =>
                match o.updUploadStep with
                | .error e => failPath o e e3 [c1, c2, c3] (some project2) true
                | .ok _ =>
                  let c4 : DbCall :=
                    ⟨Status.processing,
                     stepKwargs .upload "Uploading Potree files to Azure..."⟩
                  let e4 := e3 ++ [Ev.uploadOutput]
                  match o.uploadOutput with
                  | .error e => failPath o e e4 [c1, c2, c3, c4] (some project2) true
                  | .ok url =>
                    let project3 := { project2 with cloud := some url }
                    let e5 := e4 ++ [Ev.projectUpdate]
                    match o.projectUpdate2 with
                    | .error e => failPath o e e5 [c1, c2, c3, c4] (some project2) true
                    | .ok _ =>
                      match o.updCompleted with
                      | .error e =>
                        failPath o e e5 [c1, c2, c3, c4] (some project3) true
                      | .ok _ =>
                        { events := e5 ++ [Ev.cleanupTemp, Ev.rmtreeOutput],
                          calls := [c1, c2, c3, c4,
                            ⟨Status.completed,
                             stepKwargs .completed "Processing completed successfully"⟩],
                          projDb := some project3, madeOutputDir := true,
                          escaped := none }

/-- Store effect of a run: its successful `update_job_status` writes
applied in order. -/
def applyCalls (store : List Job) (job_id : String) (cs : List DbCall)
    (now : Nat) : List Job :=
  cs.foldl (fun s c => update_job_status s job_id c.status c.kw now) store

/-- Decision of `JobWorker._check_and_run_cleanup`
(`src/worker.py:108-128`): always on first run; otherwise, in both the
`force` and the regular branch, exactly when at least
`cleanup_interval_hours` have elapsed since the last run.  The Python
code compares `elapsed_seconds / 3600 >= hours` with real division,
which for non-negative quantities is the integer comparison used
here. -/
def shouldCleanup (last : Option Nat) (intervalHours : Nat) (now : Nat)
    (force : Bool) : Bool :=
  match last with
  | none => true
  | some t =>
    if force then intervalHours * 3600 ≤ now - t
    else intervalHours * 3600 ≤ now - t

/-- Worker-loop state relevant to the Reaper schedule
(`JobWorker.__init__`): the time of the last cleanup run, the
configured interval, and the job store. -/
structure WorkerState where
  lastCleanupTime : Option Nat := none
  cleanupIntervalHours : Nat := 1
  store : List Job
deriving Repr

/-- `JobWorker._check_and_run_cleanup` (`src/worker.py:96-136`):
when due, run `cleanup_old_jobs(hours=72)` and record the run time;
returns whether the Reaper ran. -/
def check_and_run_cleanup (w : WorkerState) (force : Bool) (now : Nat) :
    Bool × WorkerState :=
  if shouldCleanup w.lastCleanupTime w.cleanupIntervalHours now force then
    (true, { w with store := (cleanup_old_jobs w.store now 72).1,
                    lastCleanupTime := some now })
  else (false, w)

/-- Result of one iteration of the worker loop: how many times the
Reaper ran, whether a job was claimed and processed, and the new
state. -/
structure IterResult where
  cleanupRuns : Nat
  processedJob : Bool
  w : WorkerState
deriving Repr

/-- One iteration of `JobWorker.start`'s loop (`src/worker.py:61-77`):
a top-of-loop `_check_and_run_cleanup()` at time `now1`, then a claim
attempt; if a job is claimed, `process_job` runs (its store writes
applied at time `now2`) followed by `_check_and_run_cleanup(force=True)`
at `now2`; otherwise the iteration just sleeps. -/
def workerIteration (w : WorkerState) (o : Oracles) (now1 now2 : Nat) : IterResult :=
  let (ran1, w1) := check_and_run_cleanup w false now1
  match claimNext w1.store now1 with
  | (none, s) =>
    { cleanupRuns := if ran1 then 1 else 0, processedJob := false,
      w := { w1 with store := s } }
  | (some job, s) =>
    let r := process_job job o
    let s' := applyCalls s job.id r.calls now2
    let (ran2, w2) := check_and_run_cleanup { w1 with store := s' } true now2
    { cleanupRuns := (if ran1 then 1 else 0) + (if ran2 then 1 else 0),
      processedJob := true, w := w2 }

/-- Per-store invariant of spec §3: `completed_at` is set exactly on
terminal jobs. -/
def CompletedAtInv (store : List Job) : Prop :=
  ∀ j ∈ store, (j.completed_at ≠ none ↔ j.status.isTerminal = true)

/-- States of the job store reachable through the repository's write
operations: the empty store, `create_job`, `update_job_status` calls
that never move a terminal job back to a non-terminal status, the
atomic claim, the purge, and a full pipeline run on a job whose record
is not yet terminal. -/
inductive Reachable : List Job → Prop where
  | init : Reachable []
  | create {s s' pid fp ap jid now} : Reachable s →
      create_job s pid fp ap jid now = .ok s' → Reachable s'
  | update {s id status kw now} : Reachable s →
      (∀ j, getJob s id = some j → j.status.isTerminal = true →
        status.isTerminal = true) →
      Reachable (update_job_status s id status kw now)
  | claim {s now} : Reachable s → Reachable (claimNext s now).2
  | purge {s now hours} : Reachable s → Reachable (cleanup_old_jobs s now hours).1
  | pipeline {s job o now} : Reachable s →
      (∀ j, getJob s job.id = some j → j.status.isTerminal = false) →
      Reachable (applyCalls s job.id (process_job job o).calls now)

/-! Helper lemmas about the store primitives. -/

theorem applyUpdate_def (now : Nat) (st : Status) (kw : UpdateKwargs) (j : Job) :
    applyUpdate now st kw j =
      { id := j.id, project_id := j.project_id, status := st,
        current_step := match kw.current_step with
          | some s => some s
          | none => j.current_step,
        progress_message := match kw.progress_message with
          | some m => some m
          | none => j.progress_message,
        error_message := match kw.error_message with
          | some m => some m
          | none => j.error_message,
        file_path := j.file_path, azure_path := j.azure_path,
        retry_count := match kw.retry_count with
          | some r => r
          | none => j.retry_count,
        created_at := j.created_at, updated_at := now,
        completed_at := if st = .completed ∨ st = .failed then some now
          else j.completed_at } := by
  unfold applyUpdate
  rcases kw with ⟨cs, pm, em, rc⟩
  by_cases hst : st = Status.completed ∨ st = Status.failed <;>
    cases cs <;> cases pm <;> cases em <;> cases rc <;> simp [hst]

theorem updateFirst_id_map (p : Job → Bool) (f : Job → Job)
    (hf : ∀ j, (f j).id = j.id) :
    ∀ l : List Job, (updateFirst p f l).map Job.id = l.map Job.id := by
  intro l
  induction l with
  | nil => rfl
  | cons j rest ih =>
    by_cases h : p j <;> simp [updateFirst, h, hf, ih]

theorem updateFirst_no_match (p : Job → Bool) (f : Job → Job) :
    ∀ l : List Job, (∀ j ∈ l, ¬ p j) → updateFirst p f l = l := by
  intro l
  induction l with
  | nil => exact fun _ => rfl
  | cons j rest ih =>
    intro h
    have hj : ¬ p j := h j (List.mem_cons_self _ _)
    simp [updateFirst, hj, ih fun k hk => h k (List.mem_cons_of_mem _ hk)]

theorem updateFirst_append_not (p : Job → Bool) (f : Job → Job)
    (l₁ rest : List Job) (h : ∀ j ∈ l₁, ¬ p j) :
    updateFirst p f (l₁ ++ rest) = l₁ ++ updateFirst p f rest := by
  induction l₁ with
  | nil => rfl
  | cons j l ih =>
    have hj : ¬ p j := h j (List.mem_cons_self _ _)
    simp [updateFirst, hj]
    exact ih fun k hk => h k (List.mem_cons_of_mem _ hk)

theorem mem_updateFirst (p : Job → Bool) (f : Job → Job) :
    ∀ (l : List Job) (j : Job), j ∈ updateFirst p f l →
      j ∈ l ∨ ∃ k, l.find? p = some k ∧ j = f k := by
  intro l
  induction l with
  | nil => intro j h; exact absurd h (List.not_mem_nil j)
  | cons a rest ih =>
    intro j h
    by_cases ha : p a
    · simp only [updateFirst, ha, if_pos] at h
      rcases List.mem_cons.mp h with h1 | h1
      · exact Or.inr ⟨a, by simp [List.find?, ha], h1⟩
      · exact Or.inl (List.mem_cons_of_mem _ h1)
    · simp only [updateFirst, ha, if_neg, Bool.false_eq_true, not_false_iff] at h
      rcases List.mem_cons.mp h with h1 | h1
      · exact Or.inl (h1 ▸ List.mem_cons_self _ _)
      · rcases ih j h1 with h2 | ⟨k, hk, hjk⟩
        · exact Or.inl (List.mem_cons_of_mem _ h2)
        · exact Or.inr ⟨k, by simp [List.find?, ha, hk], hjk⟩

theorem getJob_update_job_status (store : List Job) (id : String) (st : Status)
    (kw : UpdateKwargs) (now : Nat) :
    getJob (update_job_status store id st kw now) id =
      (getJob store id).map (applyUpdate now st kw) := by
  induction store with
  | nil => rfl
  | cons j rest ih =>
    by_cases h : j.id = id
    · have hid : (applyUpdate now st kw j).id = id := by
        rw [applyUpdate_def]; exact h
      simp [update_job_status, updateFirst, getJob, List.find?, h, hid]
    · have h1 : (decide (j.id = id)) = false := by simp [h]
      simp only [update_job_status, updateFirst, h1, Bool.false_eq_true, if_neg,
        not_false_iff, getJob, List.find?]
      simpa [update_job_status, getJob] using ih

theorem getJob_update_job_status_other (store : List Job) (id other : String)
    (st : Status) (kw : UpdateKwargs) (now : Nat) (h : other ≠ id) :
    getJob (update_job_status store id st kw now) other = getJob store other := by
  induction store with
  | nil => rfl
  | cons j rest ih =>
    by_cases hj : j.id = id
    · have d1 : (decide (j.id = id)) = true := by simp [hj]
      have d2 : (decide ((applyUpdate now st kw j).id = other)) = false := by
        rw [applyUpdate_def]
        simp only [decide_eq_false_iff_not]
        rw [hj]
        exact fun hc => h hc.symm
      have d3 : (decide (j.id = other)) = false := by
        simp only [decide_eq_false_iff_not]
        rw [hj]
        exact fun hc => h hc.symm
      simp [update_job_status, updateFirst, getJob, List.find?, d1, d2, d3]
    · have d1 : (decide (j.id = id)) = false := by simp [hj]
      by_cases hjo : j.id = other
      · have d2 : (decide (j.id = other)) = true := by simp [hjo]
        simp [update_job_status, updateFirst, getJob, List.find?, d1, d2]
      · have d2 : (decide (j.id = other)) = false := by simp [hjo]
        simp only [update_job_status, updateFirst, d1, Bool.false_eq_true, if_neg,
          not_false_iff, getJob, List.find?, d2]
        simpa [update_job_status, getJob] using ih

/-! Claim C8: the retention purge. -/

/-- C8: `cleanup_old_jobs` deletes exactly the job records with
`created_at` strictly before the cutoff `now - hours·3600`, across all
statuses (the deletion predicate mentions only `created_at`), deletes
no other records, and returns the number of records deleted. -/
theorem purge_exact (store : List Job) (now hours : Nat) :
    ((cleanup_old_jobs store now hours).1.Sublist store) ∧
    (∀ j ∈ store,
      (j ∈ (cleanup_old_jobs store now hours).1 ↔
        ¬ j.created_at < now - hours * 3600)) ∧
    ((cleanup_old_jobs store now hours).2 =
      (store.filter (fun j => j.created_at < now - hours * 3600)).length) ∧
    ((cleanup_old_jobs store now hours).2 +
      (cleanup_old_jobs store now hours).1.length = store.length) := by
  refine ⟨List.filter_sublist store, ?_, rfl, ?_⟩
  · intro j hj
    constructor
    · intro hmem
      have := (List.mem_filter.mp hmem).2
      simpa using this
    · intro hlt
      exact List.mem_filter.mpr ⟨hj, by simpa using hlt⟩
  · have h := List.length_eq_length_filter_add
      (l := store) (fun j => decide (j.created_at < now - hours * 3600))
    have hcongr : List.filter (fun j => !decide (j.created_at < now - hours * 3600)) store
        = List.filter (fun j => decide (¬ j.created_at < now - hours * 3600)) store := by
      apply List.filter_congr
      intro j _
      rw [decide_not]
    rw [hcongr] at h
    simp only [cleanup_old_jobs]
    omega

/-- Jobs for the purge witness: two records before the cutoff (one
pending, one processing) and one after it. -/
def purgeJobOldPending : Job :=
  { id := "old1", project_id := "p", status := Status.pending,
    created_at := 100, updated_at := 100 }

def purgeJobOldProcessing : Job :=
  { id := "old2", project_id := "p", status := Status.processing,
    created_at := 200, updated_at := 200 }

def purgeJobRecent : Job :=
  { id := "new1", project_id := "p", status := Status.completed,
    created_at := 50000, updated_at := 50000, completed_at := some 50000 }

def purgeStore : List Job :=
  [purgeJobOldPending, purgeJobOldProcessing, purgeJobRecent]

/-- Witness for C8 at a concrete store and the 72-hour default: the
old pending and old processing jobs are deleted, the recent one kept,
and the returned count is 2. -/
theorem purge_exact_witness :
    ((cleanup_old_jobs purgeStore 300000 72).1.Sublist purgeStore) ∧
    ((purgeJobOldPending ∈ (cleanup_old_jobs purgeStore 300000 72).1 ↔
      ¬ purgeJobOldPending.created_at < 300000 - 72 * 3600)) ∧
    ((purgeJobRecent ∈ (cleanup_old_jobs purgeStore 300000 72).1 ↔
      ¬ purgeJobRecent.created_at < 300000 - 72 * 3600)) ∧
    (cleanup_old_jobs purgeStore 300000 72).2 = 2 := by
  have h := purge_exact purgeStore 300000 72
  refine ⟨h.1, h.2.1 purgeJobOldPending (by simp [purgeStore]),
    h.2.1 purgeJobRecent (by simp [purgeStore]), ?_⟩
  rw [h.2.2.1]
  decide

/-! Claim C6: regression of status and current_step. -/

/-- Job used for the C6 counterexample: already completed with
`current_step = completed`. -/
def jobDoneC6 : Job :=
  { id := "j1", project_id := "p", status := Status.completed,
    current_step := some Step.completed, created_at := 0, updated_at := 50,
    completed_at := some 50 }

/-- C6 counterexample: `update_job_status` has no regression guard.  On
a completed job with `current_step = completed`, a call supplying
status "processing" and `current_step = metadata` moves both fields
backward in their respective orders. -/
theorem update_status_regression_cx :
    update_job_status [jobDoneC6] "j1" Status.processing
        { current_step := some Step.metadata } 60 =
      [{ jobDoneC6 with
          status := Status.processing
          current_step := some Step.metadata
          updated_at := 60 }] ∧
    Status.rank Status.processing < Status.rank jobDoneC6.status ∧
    Step.rank Step.metadata < Step.rank Step.completed := by
  exact ⟨by decide, by decide, by decide⟩

/-- C6 amended: `update_job_status` performs no regression check: the
updated record's `status` is exactly the supplied status and, when
`current_step` is supplied, `current_step` is exactly the supplied
step — even when these are earlier in the status or step order. -/
theorem update_status_sets_supplied (store : List Job) (id : String) (st : Status)
    (kw : UpdateKwargs) (now : Nat) (j : Job) (hj : getJob store id = some j) :
    getJob (update_job_status store id st kw now) id =
      some (applyUpdate now st kw j) ∧
    (applyUpdate now st kw j).status = st ∧
    (∀ s, kw.current_step = some s → (applyUpdate now st kw j).current_step = some s) := by
  refine ⟨by rw [getJob_update_job_status, hj]; rfl, ?_, ?_⟩
  · rw [applyUpdate_def]
  · intro s hs
    rw [applyUpdate_def]
    simp [hs]

/-- Witness for C6's amended theorem on the concrete completed job. -/
theorem update_status_sets_supplied_witness :
    getJob (update_job_status [jobDoneC6] "j1" Status.processing
        { current_step := some Step.metadata } 60) "j1" =
      some (applyUpdate 60 Status.processing
        { current_step := some Step.metadata } jobDoneC6) ∧
    (applyUpdate 60 Status.processing
        { current_step := some Step.metadata } jobDoneC6).status = Status.processing ∧
    (applyUpdate 60 Status.processing
        { current_step := some Step.metadata } jobDoneC6).current_step =
      some Step.metadata := by
  have h := update_status_sets_supplied [jobDoneC6] "j1" Status.processing
    { current_step := some Step.metadata } 60 jobDoneC6 (by decide)
  exact ⟨h.1, h.2.1, h.2.2 Step.metadata rfl⟩

/-! Claim C10: the update's frame. -/

/-- Job used for the C10 counterexample. -/
def jobProcC10 : Job :=
  { id := "j2", project_id := "p", status := Status.processing,
    created_at := 0, updated_at := 10 }

/-- C10 counterexample: a call supplying no keyword fields at all, with
status "completed", modifies `completed_at` — a field that is neither a
supplied field nor `updated_at`. -/
theorem update_frame_completed_at_cx :
    update_job_status [jobProcC10] "j2" Status.completed {} 99 =
      [{ jobProcC10 with
          status := Status.completed
          updated_at := 99
          completed_at := some 99 }] ∧
    jobProcC10.completed_at = none := by
  exact ⟨by decide, rfl⟩

/-- C10 amended: `update_job_status` modifies only the supplied keyword
fields plus `status`, `updated_at`, and — when the supplied status is
terminal — `completed_at`; every other field of the matched record is
unchanged, and every other record is unchanged.  In particular a call
supplying `current_step` but not `error_message` leaves a previously
set `error_message` untouched. -/
theorem update_frame (store : List Job) (id : String) (st : Status)
    (kw : UpdateKwargs) (now : Nat) (j : Job) (hj : getJob store id = some j) :
    getJob (update_job_status store id st kw now) id =
      some (applyUpdate now st kw j) ∧
    (applyUpdate now st kw j).id = j.id ∧
    (applyUpdate now st kw j).project_id = j.project_id ∧
    (applyUpdate now st kw j).file_path = j.file_path ∧
    (applyUpdate now st kw j).azure_path = j.azure_path ∧
    (applyUpdate now st kw j).created_at = j.created_at ∧
    (applyUpdate now st kw j).updated_at = now ∧
    (kw.current_step = none →
      (applyUpdate now st kw j).current_step = j.current_step) ∧
    (kw.progress_message = none →
      (applyUpdate now st kw j).progress_message = j.progress_message) ∧
    (kw.error_message = none →
      (applyUpdate now st kw j).error_message = j.error_message) ∧
    (kw.retry_count = none →
      (applyUpdate now st kw j).retry_count = j.retry_count) ∧
    (st.isTerminal = false →
      (applyUpdate now st kw j).completed_at = j.completed_at) ∧
    (∀ other, other ≠ id →
      getJob (update_job_status store id st kw now) other = getJob store other) := by
  have hterm : st.isTerminal = false → ¬ (st = Status.completed ∨ st = Status.failed) := by
    cases st <;> simp [Status.isTerminal]
  refine ⟨by rw [getJob_update_job_status, hj]; rfl,
    by rw [applyUpdate_def], by rw [applyUpdate_def], by rw [applyUpdate_def],
    by rw [applyUpdate_def], by rw [applyUpdate_def], by rw [applyUpdate_def],
    ?_, ?_, ?_, ?_, ?_,
    fun other hne => getJob_update_job_status_other store id other st kw now hne⟩
  · intro h; rw [applyUpdate_def]; simp [h]
  · intro h; rw [applyUpdate_def]; simp [h]
  · intro h; rw [applyUpdate_def]; simp [h]
  · intro h; rw [applyUpdate_def]; simp [h]
  · intro h; rw [applyUpdate_def]; simp [hterm h]

/-- Job used for the C10 witness: carries a previously set
`error_message`. -/
def jobErrC10 : Job :=
  { id := "j3", project_id := "p", status := Status.processing,
    error_message := some "previous error", created_at := 0, updated_at := 10 }

/-- Keyword arguments of the C10 witness call: `current_step` supplied,
`error_message` not supplied. -/
def kwC10 : UpdateKwargs := { current_step := some Step.thumbnail }

/-- Witness for C10's amended theorem: supplying `current_step` leaves
the previously set `error_message` untouched. -/
theorem update_frame_witness :
    getJob (update_job_status [jobErrC10] "j3" Status.processing kwC10 20) "j3" =
      some (applyUpdate 20 Status.processing kwC10 jobErrC10) ∧
    (applyUpdate 20 Status.processing kwC10 jobErrC10).error_message =
      jobErrC10.error_message ∧
    (applyUpdate 20 Status.processing kwC10 jobErrC10).completed_at =
      jobErrC10.completed_at := by
  have h := update_frame [jobErrC10] "j3" Status.processing kwC10 20 jobErrC10 (by decide)
  exact ⟨h.1, h.2.2.2.2.2.2.2.2.2.1 rfl, h.2.2.2.2.2.2.2.2.2.2.2.1 rfl⟩

/-! Lemmas about the FIFO selection. -/

theorem minByCreated_eq_none {l : List Job} : minByCreated l = none ↔ l = [] := by
  cases l with
  | nil => simp [minByCreated]
  | cons a rest =>
    simp only [minByCreated]
    cases minByCreated rest <;> simp
    split <;> simp

theorem minByCreated_mem : ∀ {l : List Job} {j : Job}, minByCreated l = some j → j ∈ l := by
  intro l
  induction l with
  | nil => intro j h; simp [minByCreated] at h
  | cons a rest ih =>
    intro j h
    cases hr : minByCreated rest with
    | none =>
      have h2 : minByCreated (a :: rest) = some a := by
        simp [minByCreated, hr]
      rw [h2] at h
      exact (Option.some.inj h) ▸ List.mem_cons_self _ _
    | some b =>
      have h2 : minByCreated (a :: rest) =
          if b.created_at < a.created_at then some b else some a := by
        simp [minByCreated, hr]
      rw [h2] at h
      by_cases hlt : b.created_at < a.created_at
      · rw [if_pos hlt] at h
        exact List.mem_cons_of_mem _ (ih (hr.trans (congrArg some (Option.some.inj h))))
      · rw [if_neg hlt] at h
        exact (Option.some.inj h) ▸ List.mem_cons_self _ _

theorem minByCreated_le : ∀ {l : List Job} {j : Job}, minByCreated l = some j →
    ∀ k ∈ l, j.created_at ≤ k.created_at := by
  intro l
  induction l with
  | nil => intro j h; simp [minByCreated] at h
  | cons a rest ih =>
    intro j h k hk
    cases hr : minByCreated rest with
    | none =>
      have h2 : minByCreated (a :: rest) = some a := by
        simp [minByCreated, hr]
      rw [h2] at h
      have hrest : rest = [] := minByCreated_eq_none.mp hr
      have hj : j = a := (Option.some.inj h).symm
      subst hrest
      rcases List.mem_cons.mp hk with hka | hka
      · subst hka; rw [hj]
      · exact absurd hka (List.not_mem_nil k)
    | some b =>
      have h2 : minByCreated (a :: rest) =
          if b.created_at < a.created_at then some b else some a := by
        simp [minByCreated, hr]
      rw [h2] at h
      by_cases hlt : b.created_at < a.created_at
      · rw [if_pos hlt] at h
        have hj : j = b := (Option.some.inj h).symm
        subst hj
        rcases List.mem_cons.mp hk with hka | hka
        · subst hka; exact Nat.le_of_lt hlt
        · exact ih hr k hka
      · rw [if_neg hlt] at h
        have hj : j = a := (Option.some.inj h).symm
        subst hj
        rcases List.mem_cons.mp hk with hka | hka
        · subst hka; exact Nat.le_refl _
        · exact Nat.le_trans (Nat.le_of_not_lt hlt) (ih hr k hka)

theorem oldestPending_mem_pending {store : List Job} {j : Job}
    (h : oldestPending store = some j) : j ∈ store ∧ j.status = Status.pending := by
  have hm := minByCreated_mem h
  have := List.mem_filter.mp hm
  exact ⟨this.1, by simpa using this.2⟩

theorem oldestPending_min {store : List Job} {j : Job}
    (h : oldestPending store = some j) :
    ∀ k ∈ store, k.status = Status.pending → j.created_at ≤ k.created_at := by
  intro k hk hs
  exact minByCreated_le h k (List.mem_filter.mpr ⟨hk, by simpa using hs⟩)

theorem pendingJobs_eq_nil_iff {store : List Job} :
    pendingJobs store = [] ↔ ∀ k ∈ store, k.status ≠ Status.pending := by
  unfold pendingJobs
  rw [List.filter_eq_nil_iff]
  constructor
  · intro h k hk; simpa using h k hk
  · intro h k hk; simpa using h k hk

theorem claimNext_no_pending (store : List Job) (now : Nat)
    (h : ∀ k ∈ store, k.status ≠ Status.pending) :
    claimNext store now = (none, store) := by
  have h1 : pendingJobs store = [] := pendingJobs_eq_nil_iff.mpr h
  have h2 : oldestPending store = none := by
    rw [oldestPending, h1]; rfl
  rw [claimNext, h2]

theorem map_if_id_eq_self (i : String) (f : Job → Job) :
    ∀ l : List Job, (∀ k ∈ l, k.id ≠ i) →
      l.map (fun k => if k.id = i then f k else k) = l := by
  intro l
  induction l with
  | nil => intro _; rfl
  | cons a rest ih =>
    intro h
    have ha : ¬ a.id = i := h a (List.mem_cons_self _ _)
    simp only [List.map_cons, if_neg ha]
    rw [ih fun k hk => h k (List.mem_cons_of_mem _ hk)]

theorem updateFirst_eq_map_of_nodup (i : String) (f : Job → Job) :
    ∀ store : List Job, (store.map Job.id).Nodup →
      updateFirst (fun k => k.id = i) f store =
        store.map (fun k => if k.id = i then f k else k) := by
  intro store
  induction store with
  | nil => intro _; rfl
  | cons a rest ih =>
    intro hnd
    rw [List.map_cons, List.nodup_cons] at hnd
    by_cases ha : a.id = i
    · have hfresh : ∀ k ∈ rest, k.id ≠ i := by
        intro k hk hki
        exact hnd.1 (List.mem_map.mpr ⟨k, hk, hki.trans ha.symm⟩)
      have hd : (decide (a.id = i)) = true := by simp [ha]
      simp only [updateFirst, hd, if_pos, List.map_cons, if_pos ha]
      rw [map_if_id_eq_self i f rest hfresh]
    · have hd : (decide (a.id = i)) = false := by simp [ha]
      simp only [updateFirst, hd, Bool.false_eq_true, if_neg, not_false_iff,
        List.map_cons, if_neg ha]
      rw [ih hnd.2]

theorem nodup_decomp_id (l₁ l₂ : List Job) (j : Job)
    (hnd : ((l₁ ++ j :: l₂).map Job.id).Nodup) :
    (∀ k ∈ l₁, k.id ≠ j.id) ∧ (∀ k ∈ l₂, k.id ≠ j.id) := by
  rw [List.map_append, List.map_cons, List.nodup_append] at hnd
  rcases hnd with ⟨h1, h2, h3⟩
  constructor
  · intro k hk hki
    exact h3 (List.mem_map.mpr ⟨k, hk, rfl⟩) (hki ▸ List.mem_cons_self _ _)
  · intro k hk hki
    rw [List.nodup_cons] at h2
    exact h2.1 (hki ▸ List.mem_map.mpr ⟨k, hk, rfl⟩)

/-! Claim C2: FIFO claim correctness. -/

/-- C2: when no pending job exists, `get_next_job` returns none and
leaves the store unchanged; when a pending job exists it returns one;
the job it returns is a pending job with minimal `created_at`, returned
with status "processing" and a bumped `updated_at`, and the store after
the call is the old store with exactly that job so transitioned and
every other record unchanged. -/
theorem claimNext_fifo_correct (store : List Job) (now : Nat)
    (hnd : (store.map Job.id).Nodup) :
    ((∀ k ∈ store, k.status ≠ Status.pending) → claimNext store now = (none, store)) ∧
    ((∃ k ∈ store, k.status = Status.pending) → (claimNext store now).1.isSome = true) ∧
    (∀ j, oldestPending store = some j →
      j ∈ store ∧ j.status = Status.pending ∧
      (∀ k ∈ store, k.status = Status.pending → j.created_at ≤ k.created_at) ∧
      (claimNext store now).1 =
        some { j with status := Status.processing, updated_at := now } ∧
      (claimNext store now).2 = store.map (fun k =>
        if k.id = j.id then { k with status := Status.processing, updated_at := now }
        else k)) := by
  refine ⟨claimNext_no_pending store now, ?_, ?_⟩
  · intro ⟨k, hk, hs⟩
    cases hop : oldestPending store with
    | none =>
      have : pendingJobs store = [] := minByCreated_eq_none.mp hop
      exact absurd hs (pendingJobs_eq_nil_iff.mp this k hk)
    | some j => simp [claimNext, hop]
  · intro j hop
    obtain ⟨hmem, hpend⟩ := oldestPending_mem_pending hop
    refine ⟨hmem, hpend, oldestPending_min hop, ?_, ?_⟩
    · simp [claimNext, hop]
    · simp only [claimNext, hop]
      exact updateFirst_eq_map_of_nodup j.id _ store hnd

/-- Jobs for the C2 witness: two pending jobs with `created_at` 1 and
2, listed newest first. -/
def fifoJob1 : Job :=
  { id := "f1", project_id := "p", status := Status.pending,
    created_at := 1, updated_at := 1 }

def fifoJob2 : Job :=
  { id := "f2", project_id := "p", status := Status.pending,
    created_at := 2, updated_at := 2 }

/-- Witness for C2: with two pending jobs of `created_at` 1 < 2, the
first claim returns the older job, transitioned to processing, and the
newer job is untouched. -/
theorem claimNext_fifo_correct_witness :
    (claimNext [fifoJob2, fifoJob1] 5).1 =
      some { fifoJob1 with status := Status.processing, updated_at := 5 } ∧
    (claimNext [fifoJob2, fifoJob1] 5).2 =
      [fifoJob2, { fifoJob1 with status := Status.processing, updated_at := 5 }] := by
  have h := (claimNext_fifo_correct [fifoJob2, fifoJob1] 5 (by decide)).2.2
    fifoJob1 (by decide)
  refine ⟨h.2.2.2.1, ?_⟩
  rw [h.2.2.2.2]
  decide

/-! Claim C1: mutual exclusion of concurrent claims. -/

theorem countP_replicate_none (m : Nat) :
    (List.replicate m (none : Option Job)).countP (fun r => r.isSome) = 0 := by
  rw [List.countP_eq_zero]
  intro a ha
  rw [List.eq_of_mem_replicate ha]
  simp

theorem runClaims_no_pending : ∀ (m : Nat) (store : List Job) (now : Nat),
    (∀ k ∈ store, k.status ≠ Status.pending) →
    runClaims m store now = (List.replicate m none, store) := by
  intro m
  induction m with
  | zero => intro store now _; rfl
  | succ p ih =>
    intro store now h
    simp only [runClaims, claimNext_no_pending store now h, ih store now h,
      List.replicate]

/-- Effect of one claim on a store holding exactly one pending job and
no processing job: the claim succeeds and afterwards the store has no
pending job and exactly one processing job. -/
theorem claim_unique_step (store : List Job) (now : Nat)
    (hnd : (store.map Job.id).Nodup)
    (h1 : store.countP (fun j => j.status = Status.pending) = 1)
    (h0 : store.countP (fun j => j.status = Status.processing) = 0) :
    (claimNext store now).1.isSome = true ∧
    (∀ k ∈ (claimNext store now).2, k.status ≠ Status.pending) ∧
    ((claimNext store now).2.countP (fun j => j.status = Status.processing) = 1) := by
  have hlen : (pendingJobs store).length = 1 := by
    rw [pendingJobs, ← List.countP_eq_length_filter]
    exact h1
  obtain ⟨j, hj⟩ := List.length_eq_one.mp hlen
  have hop : oldestPending store = some j := by
    rw [oldestPending, hj]; rfl
  obtain ⟨hmem, hpend⟩ := oldestPending_mem_pending hop
  obtain ⟨l₁, l₂, hsplit⟩ := List.append_of_mem hmem
  subst hsplit
  obtain ⟨hf1, hf2⟩ := nodup_decomp_id l₁ l₂ j hnd
  have hupd : (claimNext (l₁ ++ j :: l₂) now).2 =
      l₁ ++ { j with status := Status.processing, updated_at := now } :: l₂ := by
    simp only [claimNext, hop]
    rw [updateFirst_append_not _ _ l₁ _ (by
      intro k hk
      simp [hf1 k hk])]
    simp [updateFirst]
  have hc1 : List.countP (fun j => decide (j.status = Status.pending)) l₁ +
      List.countP (fun j => decide (j.status = Status.pending)) l₂ = 0 := by
    have hh := h1
    rw [List.countP_append, List.countP_cons] at hh
    simp only [hpend] at hh
    simp at hh
    omega
  have hc0 : List.countP (fun j => decide (j.status = Status.processing)) l₁ +
      List.countP (fun j => decide (j.status = Status.processing)) l₂ = 0 := by
    have hh := h0
    rw [List.countP_append, List.countP_cons] at hh
    have hne : (decide (j.status = Status.processing)) = false := by
      rw [hpend]; decide
    simp only [hne, Bool.false_eq_true, if_neg, not_false_iff] at hh
    omega
  have h11 : List.countP (fun j => decide (j.status = Status.pending)) l₁ = 0 := by omega
  have h12 : List.countP (fun j => decide (j.status = Status.pending)) l₂ = 0 := by omega
  have h01 : List.countP (fun j => decide (j.status = Status.processing)) l₁ = 0 := by
    omega
  have h02 : List.countP (fun j => decide (j.status = Status.processing)) l₂ = 0 := by
    omega
  refine ⟨by simp [claimNext, hop], ?_, ?_⟩
  · intro k hk
    rw [hupd] at hk
    rcases List.mem_append.mp hk with hkl | hkr
    · have := List.countP_eq_zero.mp h11 k hkl
      simpa using this
    · rcases List.mem_cons.mp hkr with hke | hkt
      · rw [hke]
        simp
      · have := List.countP_eq_zero.mp h12 k hkt
        simpa using this
  · rw [hupd, List.countP_append, List.countP_cons]
    simp [h01, h02]

/-- C1: any interleaving of `n` concurrent `get_next_job` callers is a
sequence of `n` atomic `find_one_and_update` operations (the claim is a
single store operation, not a separate read followed by a write).
Against a store holding exactly one pending job and no processing job,
exactly one of the `n` callers receives a job — hence at most one
receives the pending job — and after all calls settle exactly one
record is in status "processing". -/
theorem claimNext_concurrent_exclusive (n : Nat) (store : List Job) (now : Nat)
    (hnd : (store.map Job.id).Nodup)
    (h1 : store.countP (fun j => j.status = Status.pending) = 1)
    (h0 : store.countP (fun j => j.status = Status.processing) = 0)
    (hn : 1 ≤ n) :
    ((runClaims n store now).1.countP (fun r => r.isSome) = 1) ∧
    ((runClaims n store now).2.countP (fun j => j.status = Status.processing) = 1) := by
  obtain ⟨m, rfl⟩ : ∃ m, n = m + 1 := ⟨n - 1, by omega⟩
  obtain ⟨hs, hnp, hproc⟩ := claim_unique_step store now hnd h1 h0
  obtain ⟨r, s2, hclaim⟩ : ∃ r s2, claimNext store now = (r, s2) := ⟨_, _, rfl⟩
  rw [hclaim] at hs hnp hproc
  simp only [runClaims, hclaim]
  rw [runClaims_no_pending m s2 now hnp]
  constructor
  · simp only [List.countP_cons, countP_replicate_none]
    simp only at hs
    simp [hs]
  · exact hproc

/-- Jobs for the C1 witness: one pending job next to one completed
job. -/
def soloPending : Job :=
  { id := "s1", project_id := "p", status := Status.pending,
    created_at := 3, updated_at := 3 }

def soloDone : Job :=
  { id := "s2", project_id := "p", status := Status.completed,
    created_at := 1, updated_at := 2, completed_at := some 2 }

/-- Witness for C1: three claim callers against one pending job —
exactly one caller receives a job and exactly one record ends in
"processing". -/
theorem claimNext_concurrent_exclusive_witness :
    ((runClaims 3 [soloDone, soloPending] 9).1.countP (fun r => r.isSome) = 1) ∧
    ((runClaims 3 [soloDone, soloPending] 9).2.countP
      (fun j => j.status = Status.processing) = 1) :=
  claimNext_concurrent_exclusive 3 [soloDone, soloPending] 9
    (by decide) (by decide) (by decide) (by decide)

/-! Lemmas about the pipeline model. -/

/-- Cumulative effect on one job record of a run's successful store
writes. -/
def foldCalls (now : Nat) (cs : List DbCall) (j : Job) : Job :=
  cs.foldl (fun a c => applyUpdate now c.status c.kw a) j

theorem foldCalls_cons (now : Nat) (c : DbCall) (cs : List DbCall) (j : Job) :
    foldCalls now (c :: cs) j = foldCalls now cs (applyUpdate now c.status c.kw j) := rfl

theorem getJob_applyCalls (store : List Job) (id : String) :
    ∀ (cs : List DbCall) (now : Nat),
      getJob (applyCalls store id cs now) id =
        (getJob store id).map (foldCalls now cs) := by
  intro cs
  induction cs generalizing store with
  | nil =>
    intro now
    cases h : getJob store id <;> simp [applyCalls, foldCalls, h]
  | cons c rest ih =>
    intro now
    have h1 : applyCalls store id (c :: rest) now =
        applyCalls (update_job_status store id c.status c.kw now) id rest now := rfl
    rw [h1, ih, getJob_update_job_status]
    cases h : getJob store id <;> simp [h, foldCalls_cons]

theorem thumbnailBlock_events (o : Oracles) (p : Project) :
    (thumbnailBlock o p).1 = [Ev.thumbGenerate] ∨
    (thumbnailBlock o p).1 = [Ev.thumbGenerate, Ev.thumbUpload] := by
  unfold thumbnailBlock
  cases o.thumbGen with
  | error e => exact Or.inl rfl
  | ok u =>
    cases o.thumbUpload with
    | error e => exact Or.inr rfl
    | ok v =>
      cases o.thumbSas with
      | error e => exact Or.inr rfl
      | ok url => exact Or.inr rfl

theorem thumbnailBlock_not_mem (o : Oracles) (p : Project) {e : Ev}
    (h1 : e ≠ Ev.thumbGenerate) (h2 : e ≠ Ev.thumbUpload) :
    e ∉ (thumbnailBlock o p).1 := by
  rcases thumbnailBlock_events o p with h | h <;> rw [h] <;> simp [h1, h2]

theorem thumbnailBlock_count (o : Oracles) (p : Project) {e : Ev}
    (h1 : e ≠ Ev.thumbGenerate) (h2 : e ≠ Ev.thumbUpload) :
    (thumbnailBlock o p).1.count e = 0 :=
  List.count_eq_zero.mpr (thumbnailBlock_not_mem o p h1 h2)

theorem thumbnailBlock_of_genError (o : Oracles) (p : Project) {e : String}
    (h : o.thumbGen = .error e) : thumbnailBlock o p = ([Ev.thumbGenerate], p) := by
  unfold thumbnailBlock
  rw [h]

theorem applyMetadata_thumbnail (md : Metadata) (p : Project) :
    (applyMetadataToProject md p).thumbnail = p.thumbnail := by
  unfold applyMetadataToProject
  cases md.center <;> by_cases h : md.points ≠ 0 <;> simp [h]

/-! Claim C3: fatal steps abort the pipeline. -/

/-- C3: an exception raised in the metadata, conversion or upload step
aborts the pipeline at once (provided the failure-marking write itself
succeeds): no later step runs, no exception escapes, and the job's
record after the run's store writes is "failed" with `error_message`
equal to the raised exception's message.  In particular, when the
Metadata Extractor raises, the thumbnail and conversion steps never
run. -/
theorem pipeline_fatal_abort (job : Job) (o : Oracles) (store : List Job)
    (now : Nat) (j0 : Job) (p : Project) (msg : String)
    (hp : o.project? = some p)
    (hmf : o.markFailedUpdate = .ok ())
    (hj : getJob store job.id = some j0) :
    (o.updMetadataStep = .ok () → o.metadata = .error msg →
      (process_job job o).escaped = none ∧
      Ev.thumbGenerate ∉ (process_job job o).events ∧
      Ev.convert ∉ (process_job job o).events ∧
      Ev.uploadOutput ∉ (process_job job o).events ∧
      getJob (applyCalls store job.id (process_job job o).calls now) job.id =
        some (foldCalls now (process_job job o).calls j0) ∧
      (foldCalls now (process_job job o).calls j0).status = Status.failed ∧
      (foldCalls now (process_job job o).calls j0).error_message = some msg) ∧
    (∀ md, o.updMetadataStep = .ok () → o.metadata = .ok md →
      o.updThumbnailStep = .ok () → o.projectUpdate1 = .ok () →
      o.updConversionStep = .ok () → o.convert = .error msg →
      (process_job job o).escaped = none ∧
      Ev.uploadOutput ∉ (process_job job o).events ∧
      getJob (applyCalls store job.id (process_job job o).calls now) job.id =
        some (foldCalls now (process_job job o).calls j0) ∧
      (foldCalls now (process_job job o).calls j0).status = Status.failed ∧
      (foldCalls now (process_job job o).calls j0).error_message = some msg) ∧
    (∀ md, o.updMetadataStep = .ok () → o.metadata = .ok md →
      o.updThumbnailStep = .ok () → o.projectUpdate1 = .ok () →
      o.updConversionStep = .ok () → o.convert = .ok () →
      o.updUploadStep = .ok () → o.uploadOutput = .error msg →
      (process_job job o).escaped = none ∧
      getJob (applyCalls store job.id (process_job job o).calls now) job.id =
        some (foldCalls now (process_job job o).calls j0) ∧
      (foldCalls now (process_job job o).calls j0).status = Status.failed ∧
      (foldCalls now (process_job job o).calls j0).error_message = some msg) := by
  refine ⟨?_, ?_, ?_⟩
  · intro h1 h2
    refine ⟨?_, ?_, ?_, ?_, ?_, ?_, ?_⟩
    · simp [process_job, hp, h1, h2, failPath, hmf]
    · simp [process_job, hp, h1, h2, failPath, hmf]
    · simp [process_job, hp, h1, h2, failPath, hmf]
    · simp [process_job, hp, h1, h2, failPath, hmf]
    · rw [getJob_applyCalls, hj]
      rfl
    · simp [process_job, hp, h1, h2, failPath, hmf, foldCalls, applyUpdate_def]
    · simp [process_job, hp, h1, h2, failPath, hmf, foldCalls, applyUpdate_def]
  · intro md h1 h2 h3 h4 h5 h6
    have hnm : Ev.uploadOutput ∉ (thumbnailBlock o (applyMetadataToProject md p)).1 :=
      thumbnailBlock_not_mem o _ (by simp) (by simp)
    refine ⟨?_, ?_, ?_, ?_, ?_⟩
    · simp [process_job, hp, h1, h2, h3, h4, h5, h6, failPath, hmf]
    · simp [process_job, hp, h1, h2, h3, h4, h5, h6, failPath, hmf, hnm]
    · rw [getJob_applyCalls, hj]
      rfl
    · simp [process_job, hp, h1, h2, h3, h4, h5, h6, failPath, hmf, foldCalls,
        applyUpdate_def, stepKwargs]
    · simp [process_job, hp, h1, h2, h3, h4, h5, h6, failPath, hmf, foldCalls,
        applyUpdate_def, stepKwargs]
  · intro md h1 h2 h3 h4 h5 h6 h7 h8
    refine ⟨?_, ?_, ?_, ?_⟩
    · simp [process_job, hp, h1, h2, h3, h4, h5, h6, h7, h8, failPath, hmf]
    · rw [getJob_applyCalls, hj]
      rfl
    · simp [process_job, hp, h1, h2, h3, h4, h5, h6, h7, h8, failPath, hmf,
        foldCalls, applyUpdate_def, stepKwargs]
    · simp [process_job, hp, h1, h2, h3, h4, h5, h6, h7, h8, failPath, hmf,
        foldCalls, applyUpdate_def, stepKwargs]

/-- Concrete job, project, oracles and store for the C3 witness: the
Metadata Extractor raises. -/
def c3Job : Job :=
  { id := "c3", project_id := "pr3", status := Status.processing,
    file_path := some "/tmp/in.laz", azure_path := some "jobs/c3.laz",
    created_at := 10, updated_at := 11 }

def c3Proj : Project := { id := "pr3" }

def c3Oracles : Oracles := { project? := some c3Proj, metadata := .error "meta boom" }

/-- Witness for C3 with a raising Metadata Extractor: no exception
escapes, the thumbnail and conversion steps never run, and the job ends
failed with the exception's message. -/
theorem pipeline_fatal_abort_witness :
    (process_job c3Job c3Oracles).escaped = none ∧
    Ev.thumbGenerate ∉ (process_job c3Job c3Oracles).events ∧
    Ev.convert ∉ (process_job c3Job c3Oracles).events ∧
    (foldCalls 12 (process_job c3Job c3Oracles).calls c3Job).status = Status.failed ∧
    (foldCalls 12 (process_job c3Job c3Oracles).calls c3Job).error_message =
      some "meta boom" := by
  have h := (pipeline_fatal_abort c3Job c3Oracles [c3Job] 12 c3Job c3Proj
    "meta boom" rfl rfl (by decide)).1 rfl rfl
  exact ⟨h.1, h.2.1, h.2.2.1, h.2.2.2.2.2.1, h.2.2.2.2.2.2⟩

/-! Claim C4: guaranteed cleanup. -/

/-- C4 amended: on every exit path on which the failure-marking
database write does not itself raise, `cleanup_temp_files` (covering
the local input file and the remote staging object) runs exactly once,
no exception escapes, and the scratch output directory is removed
exactly once whenever it was created. -/
theorem pipeline_cleanup_once (job : Job) (o : Oracles)
    (hmf : o.markFailedUpdate = .ok ()) :
    (process_job job o).escaped = none ∧
    ((process_job job o).events.count Ev.cleanupTemp = 1) ∧
    ((process_job job o).events.count Ev.rmtreeOutput =
      if (process_job job o).madeOutputDir then 1 else 0) := by
  cases hpr : o.project? with
  | none => simp [process_job, failPath, hmf, hpr]
  | some p =>
  cases hu1 : o.updMetadataStep with
  | error e => simp [process_job, failPath, hmf, hpr, hu1]
  | ok u1 =>
  cases hmd : o.metadata with
  | error e => simp [process_job, failPath, hmf, hpr, hu1, hmd]
  | ok md =>
  cases hu2 : o.updThumbnailStep with
  | error e => simp [process_job, failPath, hmf, hpr, hu1, hmd, hu2]
  | ok u2 =>
  have t1 : (thumbnailBlock o (applyMetadataToProject md p)).1.count Ev.cleanupTemp = 0 :=
    thumbnailBlock_count o _ (by decide) (by decide)
  have t2 : (thumbnailBlock o (applyMetadataToProject md p)).1.count Ev.rmtreeOutput = 0 :=
    thumbnailBlock_count o _ (by decide) (by decide)
  cases hp1 : o.projectUpdate1 with
  | error e => simp [process_job, failPath, hmf, hpr, hu1, hmd, hu2, hp1, t1, t2]
  | ok p1 =>
  cases hu3 : o.updConversionStep with
  | error e => simp [process_job, failPath, hmf, hpr, hu1, hmd, hu2, hp1, hu3, t1, t2]
  | ok u3 =>
  cases hcv : o.convert with
  | error e =>
    simp [process_job, failPath, hmf, hpr, hu1, hmd, hu2, hp1, hu3, hcv, t1, t2]
  | ok cv =>
  cases hu4 : o.updUploadStep with
  | error e =>
    simp [process_job, failPath, hmf, hpr, hu1, hmd, hu2, hp1, hu3, hcv, hu4, t1, t2]
  | ok u4 =>
  cases hup : o.uploadOutput with
  | error e =>
    simp [process_job, failPath, hmf, hpr, hu1, hmd, hu2, hp1, hu3, hcv, hu4, hup, t1, t2]
  | ok url =>
  cases hp2 : o.projectUpdate2 with
  | error e =>
    simp [process_job, failPath, hmf, hpr, hu1, hmd, hu2, hp1, hu3, hcv, hu4, hup,
      hp2, t1, t2]
  | ok p2 =>
  cases hu5 : o.updCompleted with
  | error e =>
    simp [process_job, failPath, hmf, hpr, hu1, hmd, hu2, hp1, hu3, hcv, hu4, hup,
      hp2, hu5, t1, t2]
  | ok u5 =>
    simp [process_job, failPath, hmf, hpr, hu1, hmd, hu2, hp1, hu3, hcv, hu4, hup,
      hp2, hu5, t1, t2]

/-- Concrete job and oracles for the C4 counterexample: the metadata
step raises and then the failure-marking write also raises. -/
def c4Job : Job :=
  { id := "c4", project_id := "pr4", status := Status.processing,
    file_path := some "/tmp/in4.laz", azure_path := some "jobs/c4.laz",
    created_at := 20, updated_at := 21 }

def c4Oracles : Oracles :=
  { project? := some { id := "pr4" }, metadata := .error "meta boom",
    markFailedUpdate := .error "mongo down" }

/-- C4 counterexample: on the exit path where a fatal step raised and
the failure-marking write then raised, `process_job` exits with the
second exception and the cleanup of the local input file and the remote
staging object runs zero times, not once — the release is duplicated in
the success and failure branches rather than scoped, so this path skips
it. -/
theorem pipeline_cleanup_skipped_cx :
    (process_job c4Job c4Oracles).events.count Ev.cleanupTemp = 0 ∧
    (process_job c4Job c4Oracles).escaped = some "mongo down" := by
  exact ⟨rfl, rfl⟩

/-- Witness for C4's amended theorem on a run whose conversion step
raises: cleanup runs exactly once and the created scratch directory is
removed exactly once. -/
def c4aOracles : Oracles :=
  { project? := some { id := "pr4" }, convert := .error "potree crash" }

theorem pipeline_cleanup_once_witness :
    (process_job c4Job c4aOracles).escaped = none ∧
    ((process_job c4Job c4aOracles).events.count Ev.cleanupTemp = 1) ∧
    ((process_job c4Job c4aOracles).events.count Ev.rmtreeOutput =
      if (process_job c4Job c4aOracles).madeOutputDir then 1 else 0) :=
  pipeline_cleanup_once c4Job c4aOracles rfl

/-! Claim C5: the thumbnail step is soft. -/

/-- C5: when the thumbnail step raises while metadata, conversion and
upload succeed (and the store and project writes succeed), the pipeline
still completes: no exception escapes, the conversion and upload steps
run, the job's record after the run's store writes has status
"completed" with `current_step` "completed", and the persisted project
carries no thumbnail URL (it started with none and none was set) while
its cloud URL is set. -/
theorem pipeline_thumbnail_soft (job : Job) (o : Oracles) (store : List Job)
    (now : Nat) (j0 : Job) (p : Project) (e : String) (md : Metadata) (url : String)
    (hp : o.project? = some p)
    (hpt : p.thumbnail = none)
    (h1 : o.updMetadataStep = .ok ()) (hmd : o.metadata = .ok md)
    (h2 : o.updThumbnailStep = .ok ())
    (htg : o.thumbGen = .error e)
    (hp1 : o.projectUpdate1 = .ok ()) (h3 : o.updConversionStep = .ok ())
    (hcv : o.convert = .ok ()) (h4 : o.updUploadStep = .ok ())
    (hup : o.uploadOutput = .ok url) (hp2 : o.projectUpdate2 = .ok ())
    (h5 : o.updCompleted = .ok ())
    (hj : getJob store job.id = some j0) :
    (process_job job o).escaped = none ∧
    Ev.convert ∈ (process_job job o).events ∧
    Ev.uploadOutput ∈ (process_job job o).events ∧
    getJob (applyCalls store job.id (process_job job o).calls now) job.id =
      some (foldCalls now (process_job job o).calls j0) ∧
    (foldCalls now (process_job job o).calls j0).status = Status.completed ∧
    (foldCalls now (process_job job o).calls j0).current_step = some Step.completed ∧
    (process_job job o).projDb.map Project.thumbnail = some none ∧
    (process_job job o).projDb.map Project.cloud = some (some url) := by
  have htb := thumbnailBlock_of_genError o (applyMetadataToProject md p) htg
  refine ⟨?_, ?_, ?_, ?_, ?_, ?_, ?_, ?_⟩
  · simp [process_job, hp, h1, hmd, h2, htb, hp1, h3, hcv, h4, hup, hp2, h5]
  · simp [process_job, hp, h1, hmd, h2, htb, hp1, h3, hcv, h4, hup, hp2, h5]
  · simp [process_job, hp, h1, hmd, h2, htb, hp1, h3, hcv, h4, hup, hp2, h5]
  · rw [getJob_applyCalls, hj]
    rfl
  · simp [process_job, hp, h1, hmd, h2, htb, hp1, h3, hcv, h4, hup, hp2, h5,
      foldCalls, applyUpdate_def, stepKwargs]
  · simp [process_job, hp, h1, hmd, h2, htb, hp1, h3, hcv, h4, hup, hp2, h5,
      foldCalls, applyUpdate_def, stepKwargs]
  · simp [process_job, hp, h1, hmd, h2, htb, hp1, h3, hcv, h4, hup, hp2, h5,
      applyMetadata_thumbnail, hpt]
  · simp [process_job, hp, h1, hmd, h2, htb, hp1, h3, hcv, h4, hup, hp2, h5]

/-- Concrete data for the C5 witness. -/
def c5Job : Job :=
  { id := "c5", project_id := "pr5", status := Status.processing,
    file_path := some "/tmp/in5.laz", azure_path := some "jobs/c5.laz",
    created_at := 30, updated_at := 31 }

def c5Proj : Project := { id := "pr5" }

def c5Md : Metadata :=
  { center := some { lat := some 39, lon := some (-86), z := some 200 }, points := 42 }

def c5Oracles : Oracles :=
  { project? := some c5Proj, metadata := .ok c5Md,
    thumbGen := .error "render crash", uploadOutput := .ok "https://viewer" }

/-- Witness for C5: thumbnail generation raises, everything else
succeeds — the job completes, conversion and upload ran, and the
persisted project has no thumbnail URL but has the cloud URL. -/
theorem pipeline_thumbnail_soft_witness :
    (process_job c5Job c5Oracles).escaped = none ∧
    Ev.convert ∈ (process_job c5Job c5Oracles).events ∧
    Ev.uploadOutput ∈ (process_job c5Job c5Oracles).events ∧
    (foldCalls 33 (process_job c5Job c5Oracles).calls c5Job).status =
      Status.completed ∧
    (process_job c5Job c5Oracles).projDb.map Project.thumbnail = some none ∧
    (process_job c5Job c5Oracles).projDb.map Project.cloud =
      some (some "https://viewer") := by
  have h := pipeline_thumbnail_soft c5Job c5Oracles [c5Job] 33 c5Job c5Proj
    "render crash" c5Md "https://viewer" rfl rfl rfl rfl rfl rfl rfl rfl rfl rfl
    rfl rfl rfl (by decide)
  exact ⟨h.1, h.2.1, h.2.2.1, h.2.2.2.2.1, h.2.2.2.2.2.2.1, h.2.2.2.2.2.2.2⟩

/-! Claim C9: the Reaper schedule. -/

/-- Worker state and oracles for the C9 counterexample: cleanup has
already run once (at time 0), the store is empty, and one hour has
elapsed. -/
def c9W : WorkerState :=
  { lastCleanupTime := some 0, cleanupIntervalHours := 1, store := [] }

def c9Oracles : Oracles := { project? := none }

/-- C9 counterexample: past the first-run trigger
(`lastCleanupTime ≠ none`), an idle iteration in which no job is
processed still invokes the Reaper, because the top-of-loop
`_check_and_run_cleanup()` runs it whenever the interval has elapsed —
not only after a completed job. -/
theorem reaper_idle_run_cx :
    c9W.lastCleanupTime ≠ none ∧
    (workerIteration c9W c9Oracles 3600 3600).processedJob = false ∧
    1 ≤ (workerIteration c9W c9Oracles 3600 3600).cleanupRuns := by
  refine ⟨by simp [c9W], rfl, by decide⟩

/-- C9 amended: beyond the first run, the top-of-loop check — executed
every iteration, idle or not — runs the Reaper exactly when
`cleanup_interval` has elapsed since its last run; an idle iteration
therefore runs it under exactly that condition; and the post-job
(forced) check likewise runs it only when `cleanup_interval` has
elapsed since the last run. -/
theorem reaper_schedule (w : WorkerState) (o : Oracles) (now1 now2 t : Nat)
    (hl : w.lastCleanupTime = some t) :
    ((check_and_run_cleanup w false now1).1 = true ↔
      w.cleanupIntervalHours * 3600 ≤ now1 - t) ∧
    ((workerIteration w o now1 now2).processedJob = false →
      (workerIteration w o now1 now2).cleanupRuns =
        if w.cleanupIntervalHours * 3600 ≤ now1 - t then 1 else 0) ∧
    (∀ w2 : WorkerState, ∀ t2 : Nat, w2.lastCleanupTime = some t2 →
      ((check_and_run_cleanup w2 true now2).1 = true ↔
        w2.cleanupIntervalHours * 3600 ≤ now2 - t2)) := by
  refine ⟨?_, ?_, ?_⟩
  · by_cases hc : w.cleanupIntervalHours * 3600 ≤ now1 - t <;>
      simp [check_and_run_cleanup, shouldCleanup, hl, hc]
  · intro hpj
    by_cases hc : w.cleanupIntervalHours * 3600 ≤ now1 - t <;>
    · rcases hcl : claimNext ((check_and_run_cleanup w false now1).2).store now1
        with ⟨r, s2⟩
      cases r with
      | some j =>
        exfalso
        have : (workerIteration w o now1 now2).processedJob = true := by
          simp only [workerIteration]
          rw [hcl]
        rw [this] at hpj
        exact absurd hpj (by simp)
      | none =>
        simp only [workerIteration]
        rw [hcl]
        simp [check_and_run_cleanup, shouldCleanup, hl, hc]
  · intro w2 t2 hl2
    by_cases hc : w2.cleanupIntervalHours * 3600 ≤ now2 - t2 <;>
      simp [check_and_run_cleanup, shouldCleanup, hl2, hc]

/-- Witness for C9's amended theorem: at exactly one elapsed hour, the
idle iteration runs the Reaper once and the top-of-loop check fires. -/
theorem reaper_schedule_witness :
    (workerIteration c9W c9Oracles 3600 3600).cleanupRuns = 1 ∧
    (check_and_run_cleanup c9W false 3600).1 = true := by
  have h := reaper_schedule c9W c9Oracles 3600 3600 0 rfl
  constructor
  · rw [h.2.1 rfl]
    decide
  · exact h.1.mpr (by decide)

/-! Claim C7: the completed_at invariant over reachable states. -/

theorem create_job_ok {s s' : List Job} {pid fp ap jid : String} {now : Nat}
    (h : create_job s pid fp ap jid now = .ok s') :
    (∀ j ∈ s, j.id ≠ jid) ∧
    s' = s ++ [{ id := jid
                 project_id := pid
                 status := Status.pending
                 file_path := some fp
                 azure_path := some ap
                 created_at := now
                 updated_at := now }] := by
  unfold create_job at h
  by_cases ha : s.any (fun j => decide (j.id = jid)) = true
  · rw [if_pos ha] at h
    cases h
  · rw [if_neg ha] at h
    refine ⟨?_, (Except.ok.inj h).symm⟩
    intro j hj he
    exact ha (List.any_eq_true.mpr ⟨j, hj, by simp [he]⟩)

theorem update_job_status_id_map (s : List Job) (id : String) (st : Status)
    (kw : UpdateKwargs) (now : Nat) :
    (update_job_status s id st kw now).map Job.id = s.map Job.id :=
  updateFirst_id_map _ _ (fun j => by rw [applyUpdate_def]) s

theorem applyCalls_id_map : ∀ (cs : List DbCall) (s : List Job) (id : String)
    (now : Nat), (applyCalls s id cs now).map Job.id = s.map Job.id := by
  intro cs
  induction cs with
  | nil => intro s id now; rfl
  | cons c rest ih =>
    intro s id now
    have hstep : applyCalls s id (c :: rest) now =
        applyCalls (update_job_status s id c.status c.kw now) id rest now := rfl
    rw [hstep, ih, update_job_status_id_map]

theorem find?_id_of_nodup : ∀ {s : List Job} {j : Job}, j ∈ s →
    (s.map Job.id).Nodup → s.find? (fun k => k.id = j.id) = some j := by
  intro s
  induction s with
  | nil => intro j h; exact absurd h (List.not_mem_nil j)
  | cons a rest ih =>
    intro j hmem hnd
    rw [List.map_cons, List.nodup_cons] at hnd
    rcases List.mem_cons.mp hmem with rfl | hmem2
    · simp [List.find?]
    · have hne : a.id ≠ j.id := by
        intro he
        exact hnd.1 (he ▸ List.mem_map.mpr ⟨j, hmem2, rfl⟩)
      have hd : (decide (a.id = j.id)) = false := by simp [hne]
      simp only [List.find?, hd]
      exact ih hmem2 hnd.2

/-- Every state reachable through the store operations has pairwise
distinct job ids (Mongo's `_id` is a primary key; `create_job` rejects
collisions and no operation rewrites an id). -/
theorem reachable_nodup {s : List Job} (h : Reachable s) : (s.map Job.id).Nodup := by
  induction h with
  | init => simp
  | create hr hok ih =>
    obtain ⟨hfresh, rfl⟩ := create_job_ok hok
    rw [List.map_append, List.nodup_append]
    refine ⟨ih, by simp, ?_⟩
    intro a ha hb
    simp only [List.map_cons, List.map_nil, List.mem_singleton] at hb
    obtain ⟨k, hk, rfl⟩ := List.mem_map.mp ha
    exact hfresh k hk hb
  | update hr hguard ih =>
    rw [update_job_status_id_map]
    exact ih
  | claim hr ih =>
    rename_i s now
    cases hop : oldestPending s with
    | none => simp only [claimNext, hop]; exact ih
    | some j =>
      simp only [claimNext, hop]
      rw [updateFirst_id_map (fun k => k.id = j.id)
        (fun k => { k with status := Status.processing, updated_at := now })
        (fun k => rfl)]
      exact ih
  | purge hr ih =>
    exact List.Nodup.sublist (List.Sublist.map _ (List.filter_sublist _)) ih
  | pipeline hr hnt ih =>
    rw [applyCalls_id_map]
    exact ih

/-- Preservation of the completed_at invariant by one update that never
moves a terminal job to a non-terminal status. -/
theorem inv_update (s : List Job) (id : String) (st : Status) (kw : UpdateKwargs)
    (now : Nat) (hinv : CompletedAtInv s)
    (hguard : ∀ j, getJob s id = some j → j.status.isTerminal = true →
      st.isTerminal = true) :
    CompletedAtInv (update_job_status s id st kw now) := by
  intro j hj
  rcases mem_updateFirst _ _ s j hj with hmem | ⟨k, hk, hjk⟩
  · exact hinv j hmem
  · have hkmem : k ∈ s := List.mem_of_find?_eq_some hk
    have hkinv := hinv k hkmem
    subst hjk
    by_cases hterm : st.isTerminal = true
    · have hor : st = Status.completed ∨ st = Status.failed := by
        cases st <;> simp_all [Status.isTerminal]
      rw [applyUpdate_def]
      simp [hor, hterm]
    · have hknt : k.status.isTerminal = false := by
        by_cases hk2 : k.status.isTerminal = true
        · exact absurd (hguard k hk hk2) hterm
        · simp only [Bool.not_eq_true] at hk2
          exact hk2
      have hkc : k.completed_at = none := by
        by_cases hc : k.completed_at = none
        · exact hc
        · exact absurd (hkinv.mp hc) (by simp [hknt])
      have hnst : ¬ (st = Status.completed ∨ st = Status.failed) := by
        cases st <;> simp_all [Status.isTerminal]
      rw [applyUpdate_def]
      simp [hnst, hkc, hterm]

/-- Shape of a pipeline run's store writes: every write but the last
carries status "processing", and no write carries status "pending". -/
def GoodCalls (cs : List DbCall) : Prop :=
  (∀ c ∈ cs.dropLast, c.status = Status.processing) ∧
  (∀ c ∈ cs, c.status ≠ Status.pending)

theorem process_job_goodCalls (job : Job) (o : Oracles) :
    GoodCalls (process_job job o).calls := by
  cases hmf : o.markFailedUpdate with
  | error e0 =>
    cases hpr : o.project? with
    | none => simp [process_job, failPath, hmf, hpr, GoodCalls]
    | some p =>
    cases hu1 : o.updMetadataStep with
    | error e => simp [process_job, failPath, hmf, hpr, hu1, GoodCalls]
    | ok u1 =>
    cases hmd : o.metadata with
    | error e => simp [process_job, failPath, hmf, hpr, hu1, hmd, GoodCalls, stepKwargs]
    | ok md =>
    cases hu2 : o.updThumbnailStep with
    | error e => simp [process_job, failPath, hmf, hpr, hu1, hmd, hu2, GoodCalls, stepKwargs]
    | ok u2 =>
    cases hp1 : o.projectUpdate1 with
    | error e =>
      simp [process_job, failPath, hmf, hpr, hu1, hmd, hu2, hp1, GoodCalls, stepKwargs]
    | ok p1 =>
    cases hu3 : o.updConversionStep with
    | error e =>
      simp [process_job, failPath, hmf, hpr, hu1, hmd, hu2, hp1, hu3, GoodCalls, stepKwargs]
    | ok u3 =>
    cases hcv : o.convert with
    | error e =>
      simp [process_job, failPath, hmf, hpr, hu1, hmd, hu2, hp1, hu3, hcv, GoodCalls,
        stepKwargs]
    | ok cv =>
    cases hu4 : o.updUploadStep with
    | error e =>
      simp [process_job, failPath, hmf, hpr, hu1, hmd, hu2, hp1, hu3, hcv, hu4,
        GoodCalls, stepKwargs]
    | ok u4 =>
    cases hup : o.uploadOutput with
    | error e =>
      simp [process_job, failPath, hmf, hpr, hu1, hmd, hu2, hp1, hu3, hcv, hu4, hup,
        GoodCalls, stepKwargs]
    | ok url =>
    cases hp2 : o.projectUpdate2 with
    | error e =>
      simp [process_job, failPath, hmf, hpr, hu1, hmd, hu2, hp1, hu3, hcv, hu4, hup,
        hp2, GoodCalls, stepKwargs]
    | ok p2 =>
    cases hu5 : o.updCompleted with
    | error e =>
      simp [process_job, failPath, hmf, hpr, hu1, hmd, hu2, hp1, hu3, hcv, hu4, hup,
        hp2, hu5, GoodCalls, stepKwargs]
    | ok u5 =>
      simp [process_job, failPath, hmf, hpr, hu1, hmd, hu2, hp1, hu3, hcv, hu4, hup,
        hp2, hu5, GoodCalls, stepKwargs]
  | ok mf =>
    cases hpr : o.project? with
    | none => simp [process_job, failPath, hmf, hpr, GoodCalls]
    | some p =>
    cases hu1 : o.updMetadataStep with
    | error e => simp [process_job, failPath, hmf, hpr, hu1, GoodCalls]
    | ok u1 =>
    cases hmd : o.metadata with
    | error e => simp [process_job, failPath, hmf, hpr, hu1, hmd, GoodCalls, stepKwargs]
    | ok md =>
    cases hu2 : o.updThumbnailStep with
    | error e => simp [process_job, failPath, hmf, hpr, hu1, hmd, hu2, GoodCalls, stepKwargs]
    | ok u2 =>
    cases hp1 : o.projectUpdate1 with
    | error e =>
      simp [process_job, failPath, hmf, hpr, hu1, hmd, hu2, hp1, GoodCalls, stepKwargs]
    | ok p1 =>
    cases hu3 : o.updConversionStep with
    | error e =>
      simp [process_job, failPath, hmf, hpr, hu1, hmd, hu2, hp1, hu3, GoodCalls, stepKwargs]
    | ok u3 =>
    cases hcv : o.convert with
    | error e =>
      simp [process_job, failPath, hmf, hpr, hu1, hmd, hu2, hp1, hu3, hcv, GoodCalls,
        stepKwargs]
    | ok cv =>
    cases hu4 : o.updUploadStep with
    | error e =>
      simp [process_job, failPath, hmf, hpr, hu1, hmd, hu2, hp1, hu3, hcv, hu4,
        GoodCalls, stepKwargs]
    | ok u4 =>
    cases hup : o.uploadOutput with
    | error e =>
      simp [process_job, failPath, hmf, hpr, hu1, hmd, hu2, hp1, hu3, hcv, hu4, hup,
        GoodCalls, stepKwargs]
    | ok url =>
    cases hp2 : o.projectUpdate2 with
    | error e =>
      simp [process_job, failPath, hmf, hpr, hu1, hmd, hu2, hp1, hu3, hcv, hu4, hup,
        hp2, GoodCalls, stepKwargs]
    | ok p2 =>
    cases hu5 : o.updCompleted with
    | error e =>
      simp [process_job, failPath, hmf, hpr, hu1, hmd, hu2, hp1, hu3, hcv, hu4, hup,
        hp2, hu5, GoodCalls, stepKwargs]
    | ok u5 =>
      simp [process_job, failPath, hmf, hpr, hu1, hmd, hu2, hp1, hu3, hcv, hu4, hup,
        hp2, hu5, GoodCalls, stepKwargs]

theorem inv_applyCalls : ∀ (cs : List DbCall) (s : List Job) (id : String) (now : Nat),
    CompletedAtInv s →
    (∀ k, getJob s id = some k → k.status.isTerminal = false) →
    (∀ c ∈ cs.dropLast, c.status = Status.processing) →
    (∀ c ∈ cs, c.status ≠ Status.pending) →
    CompletedAtInv (applyCalls s id cs now) := by
  intro cs
  induction cs with
  | nil => intro s id now hinv _ _ _; exact hinv
  | cons c rest ih =>
    intro s id now hinv hnt hdrop hnp
    have hstep : applyCalls s id (c :: rest) now =
        applyCalls (update_job_status s id c.status c.kw now) id rest now := rfl
    rw [hstep]
    cases hcs : c.status with
    | pending => exact absurd hcs (hnp c (List.mem_cons_self _ _))
    | processing =>
      apply ih
      · apply inv_update _ _ _ _ _ hinv
        intro j hj hterm
        exact absurd hterm (by simp [hnt j hj])
      · intro k hk
        rw [getJob_update_job_status] at hk
        cases hg : getJob s id with
        | none => rw [hg] at hk; cases hk
        | some k0 =>
          rw [hg] at hk
          have hkk : k = applyUpdate now Status.processing c.kw k0 :=
            (Option.some.inj hk).symm
          rw [hkk, applyUpdate_def]
          rfl
      · intro c2 hc2
        apply hdrop
        cases rest with
        | nil => exact absurd hc2 (List.not_mem_nil c2)
        | cons d t =>
          rw [List.dropLast_cons₂]
          exact List.mem_cons_of_mem _ hc2
      · intro c2 hc2
        exact hnp c2 (List.mem_cons_of_mem _ hc2)
    | completed =>
      have hrest : rest = [] := by
        cases rest with
        | nil => rfl
        | cons d t =>
          have hmem : c ∈ (c :: d :: t).dropLast := by
            rw [List.dropLast_cons₂]
            exact List.mem_cons_self _ _
          have := hdrop c hmem
          rw [hcs] at this
          cases this
      subst hrest
      exact inv_update _ _ _ _ _ hinv (fun j hj _ => rfl)
    | failed =>
      have hrest : rest = [] := by
        cases rest with
        | nil => rfl
        | cons d t =>
          have hmem : c ∈ (c :: d :: t).dropLast := by
            rw [List.dropLast_cons₂]
            exact List.mem_cons_self _ _
          have := hdrop c hmem
          rw [hcs] at this
          cases this
      subst hrest
      exact inv_update _ _ _ _ _ hinv (fun j hj _ => rfl)

/-- C7 amended: for every store state reachable through `create_job`,
non-regressing `update_job_status` calls, the atomic claim, the purge,
and pipeline runs on not-yet-terminal jobs, every job satisfies:
`completed_at` is set if and only if its status is completed or
failed.  (The unguarded operation can break the invariant, because
`completed_at` is never cleared — see the counterexample.) -/
theorem reachable_completed_at_iff (s : List Job) (h : Reachable s) :
    ∀ j ∈ s, (j.completed_at ≠ none ↔ j.status.isTerminal = true) := by
  induction h with
  | init => intro j hj; exact absurd hj (List.not_mem_nil j)
  | create hr hok ih =>
    obtain ⟨hfresh, rfl⟩ := create_job_ok hok
    intro j hj
    rcases List.mem_append.mp hj with hj1 | hj2
    · exact ih j hj1
    · rw [List.mem_singleton.mp hj2]
      simp [Status.isTerminal]
  | update hr hguard ih =>
    exact inv_update _ _ _ _ _ ih hguard
  | claim hr ih =>
    rename_i s now
    cases hop : oldestPending s with
    | none => simp only [claimNext, hop]; exact ih
    | some j0 =>
      simp only [claimNext, hop]
      intro j hj
      rcases mem_updateFirst _ _ s j hj with hmem | ⟨k, hk, hjk⟩
      · exact ih j hmem
      · obtain ⟨hj0mem, hj0pend⟩ := oldestPending_mem_pending hop
        rw [find?_id_of_nodup hj0mem (reachable_nodup hr)] at hk
        have hkj : k = j0 := (Option.some.inj hk).symm
        subst hkj
        subst hjk
        have hc : k.completed_at = none := by
          by_cases hcc : k.completed_at = none
          · exact hcc
          · have := (ih k hj0mem).mp hcc
            rw [hj0pend] at this
            cases this
        simp [hc, hj0pend, Status.isTerminal]
  | purge hr ih =>
    intro j hj
    exact ih j (List.mem_of_mem_filter hj)
  | pipeline hr hnt ih =>
    rename_i s job o now
    exact inv_applyCalls _ s job.id now ih hnt
      (process_job_goodCalls job o).1 (process_job_goodCalls job o).2

/-- Job inserted by `create_job` in the C7 scenario. -/
def c7Job : Job :=
  { id := "x", project_id := "p", status := Status.pending,
    file_path := some "/f", azure_path := some "jobs/x",
    created_at := 5, updated_at := 5 }

/-- Record after the C7 counterexample's call sequence: status moved
back to processing while `completed_at` remains set. -/
def c7Bad : Job :=
  { c7Job with status := Status.processing, updated_at := 7, completed_at := some 6 }

/-- C7 counterexample: using only `create_job` and `update_job_status`,
the sequence create → update(completed) → update(processing) produces a
store whose job has `completed_at` set while its status is
"processing" — `completed_at` is never cleared, so the claimed iff
fails on states reachable through these operations. -/
theorem completed_at_iff_cx :
    create_job [] "p" "/f" "jobs/x" "x" 5 = .ok [c7Job] ∧
    getJob (update_job_status (update_job_status [c7Job] "x" Status.completed {} 6)
        "x" Status.processing {} 7) "x" = some c7Bad ∧
    c7Bad.completed_at ≠ none ∧
    c7Bad.status.isTerminal = false := by
  refine ⟨rfl, by decide, by decide, rfl⟩

/-- Terminal record for the C7 witness. -/
def c7Done : Job :=
  { c7Job with status := Status.completed, updated_at := 8, completed_at := some 8 }

/-- Witness for C7's amended theorem on the concrete reachable state
create → update(completed): the completed job has `completed_at` set
iff terminal. -/
theorem reachable_completed_at_iff_witness :
    getJob (update_job_status [c7Job] "x" Status.completed {} 8) "x" = some c7Done ∧
    (c7Done.completed_at ≠ none ↔ c7Done.status.isTerminal = true) := by
  have h1 : Reachable [c7Job] := Reachable.create Reachable.init rfl
  have h2 : Reachable (update_job_status [c7Job] "x" Status.completed {} 8) :=
    Reachable.update h1 (fun j hj ht => rfl)
  exact ⟨by decide, reachable_completed_at_iff _ h2 c7Done (by decide)⟩

end PotreeAPI
